import Mathlib

/-!
Verification of the lab-report PDF processing server.

Shallow embedding of the pure/deterministic parts of the JavaScript source
(`src/index.js`, `src/utils/pdfDecryptor.js`, `src/utils/pdfSplitter.js`,
and the unnamed route/decryptor variants).  JavaScript strings are modelled
as `List Char`; external collaborators (the pdf-lib library, the OCR API and
the AI chat completion API, the regex engine where its full Unicode
semantics is irrelevant to the property at hand) are modelled as explicit
oracle parameters recording the outcome of each call, so that every theorem
quantifies over all possible behaviours of those collaborators.
-/

/-- JavaScript strings are modelled as lists of characters. -/
abbrev JStr := List Char

/-- Characters removed by `String.prototype.trim` and matched by the regex
class `\s`.  We model the ASCII whitespace characters plus NBSP and the
BOM; the remaining exotic Unicode space code points behave identically and
never occur in the constants the code manipulates. -/
def isJsWs (c : Char) : Bool :=
  c = ' ' || c = '\t' || c = '\n' || c = '\r' || c = '\x0B' || c = '\x0C' ||
  c = ' ' || c = '﻿'

/-- JavaScript `s.trim()`: strip leading and trailing whitespace. -/
def jsTrim (l : JStr) : JStr :=
  ((l.dropWhile isJsWs).reverse.dropWhile isJsWs).reverse

/-- JavaScript `content.split('\n')`.  Always returns at least one piece;
splitting the empty string yields `[""]`. -/
def splitNl : JStr → List JStr
  | [] => [[]]
  | c :: cs =>
    match splitNl cs with
    | [] => [[]]
    | h :: t => if c = '\n' then [] :: h :: t else (c :: h) :: t

/-- JavaScript `lines.join('\n')`. -/
def joinNl : List JStr → JStr
  | [] => []
  | [l] => l
  | l :: l₂ :: ls => l ++ '\n' :: joinNl (l₂ :: ls)

/-- The prefix of a line before its first `:`, as captured by the regex
`/^([^:]+):/` used throughout the source: the capture succeeds exactly when
the line has a nonempty colon-free prefix followed by a `:`. -/
def preColon (l : JStr) : Option JStr :=
  let pre := l.takeWhile (fun c => c != ':')
  if pre.length = 0 then none
  else if pre.length = l.length then none
  else some pre

/-- `src/index.js` `removeDuplicates` (also verbatim in `src/unnamed/part_003`):
the dedup key of a line, `match[1].trim()` for the regex `/^([^:]+):/`;
`none` when the regex does not match. -/
def examKeyRD (l : JStr) : Option JStr :=
  (preColon l).map jsTrim

/-- The `for (const line of examLines)` loop of `removeDuplicates`, with the
`seenExams` set threaded through (`Set` membership modelled by list
membership). -/
def dedupLoop (seen : List JStr) : List JStr → List JStr
  | [] => []
  | l :: ls =>
    match examKeyRD l with
    | some k => if k ∈ seen then dedupLoop seen ls else l :: dedupLoop (k :: seen) ls
    | none => l :: dedupLoop seen ls

/-- `src/index.js` lines 369-396, `removeDuplicates(content)`: keep
`lines[0]` verbatim, drop `lines[1]`, dedup `lines.slice(2)` by exam name,
re-join as `patientLine + "\n\n" + uniqueLines.join('\n')`. -/
def removeDuplicates (content : JStr) : JStr :=
  let lines := splitNl content
  lines.headI ++ '\n' :: '\n' :: joinNl (dedupLoop [] (lines.drop 2))

/-- Specification-style reformulation of first-occurrence deduplication:
keep each line, and after keeping a keyed line delete every later line
bearing the same key.  Used to characterise `dedupLoop`. -/
def firstOccDedup : List JStr → List JStr
  | [] => []
  | l :: ls =>
    match examKeyRD l with
    | some k => l :: firstOccDedup (ls.filter (fun l₂ => examKeyRD l₂ != some k))
    | none => l :: firstOccDedup ls
termination_by xs => xs.length
decreasing_by
  · exact Nat.lt_succ_of_le (List.length_filter_le _ _)
  · exact Nat.lt_succ_self _

-- Basic facts about the newline split/join pair.

theorem splitNl_ne_nil (s : JStr) : splitNl s ≠ [] := by
  induction s with
  | nil => simp [splitNl]
  | cons c cs ih =>
    rcases h : splitNl cs with _ | ⟨h₁, t⟩
    · exact absurd h ih
    · simp only [splitNl, h]
      split <;> simp

theorem splitNl_no_nl (s : JStr) : ∀ p ∈ splitNl s, '\n' ∉ p := by
  induction s with
  | nil => intro p hp; simp [splitNl] at hp; simp [hp]
  | cons c cs ih =>
    intro p hp
    simp only [splitNl] at hp
    rcases h : splitNl cs with _ | ⟨h₁, t⟩
    · exact absurd h (splitNl_ne_nil cs)
    · rw [h] at hp
      by_cases hc : c = '\n'
      · simp [hc] at hp
        rcases hp with hp | hp | hp
        · simp [hp]
        · exact ih p (by rw [h]; simp [hp])
        · exact ih p (by rw [h]; simp [hp])
      · simp [hc] at hp
        rcases hp with hp | hp
        · subst hp
          intro hmem
          rcases List.mem_cons.mp hmem with h' | h'
          · exact hc h'.symm
          · exact ih h₁ (by rw [h]; simp) h'
        · exact ih p (by rw [h]; simp [hp])

theorem splitNl_cons_nl (cs : JStr) : splitNl ('\n' :: cs) = [] :: splitNl cs := by
  simp only [splitNl]
  rcases h : splitNl cs with _ | ⟨h₁, t⟩
  · exact absurd h (splitNl_ne_nil cs)
  · simp

theorem splitNl_append (a rest : JStr) (ha : '\n' ∉ a) :
    splitNl (a ++ '\n' :: rest) = a :: splitNl rest := by
  induction a with
  | nil => simpa using splitNl_cons_nl rest
  | cons c a' ih =>
    have hc : c ≠ '\n' := fun h => ha (h ▸ List.mem_cons_self c a')
    have ha' : '\n' ∉ a' := fun h => ha (List.mem_cons_of_mem c h)
    simp only [List.cons_append, splitNl, List.append_eq]
    rw [ih ha']
    simp [hc]

theorem splitNl_of_no_nl (a : JStr) (ha : '\n' ∉ a) : splitNl a = [a] := by
  induction a with
  | nil => simp [splitNl]
  | cons c a' ih =>
    have hc : c ≠ '\n' := fun h => ha (h ▸ List.mem_cons_self c a')
    have ha' : '\n' ∉ a' := fun h => ha (List.mem_cons_of_mem c h)
    simp only [splitNl]
    rw [ih ha']
    simp [hc]

theorem splitNl_joinNl (ps : List JStr) (h : ∀ p ∈ ps, '\n' ∉ p) (hne : ps ≠ []) :
    splitNl (joinNl ps) = ps := by
  induction ps with
  | nil => exact absurd rfl hne
  | cons l ls ih =>
    rcases ls with _ | ⟨l₂, ls'⟩
    · simpa [joinNl] using splitNl_of_no_nl l (h l (by simp))
    · have hl : '\n' ∉ l := h l (by simp)
      simp only [joinNl]
      rw [splitNl_append l _ hl, ih (fun p hp => h p (List.mem_cons_of_mem l hp)) (by simp)]

-- Facts about the dedup loop.

theorem dedupLoop_subset (ls : List JStr) : ∀ seen, ∀ x ∈ dedupLoop seen ls, x ∈ ls := by
  induction ls with
  | nil => intro seen x hx; simp [dedupLoop] at hx
  | cons l ls ih =>
    intro seen x hx
    simp only [dedupLoop] at hx
    rcases h : examKeyRD l with _ | k
    · rw [h] at hx
      rcases List.mem_cons.mp hx with h' | h'
      · simp [h']
      · exact List.mem_cons_of_mem l (ih seen x h')
    · rw [h] at hx
      by_cases hk : k ∈ seen
      · simp [hk] at hx
        exact List.mem_cons_of_mem l (ih seen x hx)
      · simp [hk] at hx
        rcases hx with h' | h'
        · simp [h']
        · exact List.mem_cons_of_mem l (ih _ x h')

theorem dedupLoop_idem (ls : List JStr) :
    ∀ seen, dedupLoop seen (dedupLoop seen ls) = dedupLoop seen ls := by
  induction ls with
  | nil => intro seen; simp [dedupLoop]
  | cons l ls ih =>
    intro seen
    rcases h : examKeyRD l with _ | k
    · simp only [dedupLoop, h]
      rw [ih seen]
    · by_cases hk : k ∈ seen
      · simp only [dedupLoop, h, if_pos hk]
        exact ih seen
      · simp only [dedupLoop, h, if_neg hk]
        rw [ih (k :: seen)]

theorem headI_mem_of_ne_nil {l : List JStr} (h : l ≠ []) : l.headI ∈ l := by
  cases l with
  | nil => exact absurd rfl h
  | cons a t => simp

theorem rd_fixed_nil (p : JStr) (hp : '\n' ∉ p) :
    removeDuplicates (p ++ '\n' :: '\n' :: []) = p ++ '\n' :: '\n' :: [] := by
  unfold removeDuplicates
  rw [splitNl_append _ _ hp, splitNl_cons_nl]
  simp [splitNl, dedupLoop, examKeyRD, preColon, joinNl]

theorem rd_fixed_cons (p : JStr) (us : List JStr) (hp : '\n' ∉ p)
    (husnl : ∀ u ∈ us, '\n' ∉ u) (hne : us ≠ [])
    (hstable : dedupLoop [] us = us) :
    removeDuplicates (p ++ '\n' :: '\n' :: joinNl us) = p ++ '\n' :: '\n' :: joinNl us := by
  unfold removeDuplicates
  rw [splitNl_append _ _ hp, splitNl_cons_nl, splitNl_joinNl us husnl hne]
  simp [List.headI, hstable]

/-- C8: the dedup/merge step is idempotent: for every content string,
applying `removeDuplicates` to its own output yields that output
unchanged. -/
theorem removeDuplicates_idempotent (content : JStr) :
    removeDuplicates (removeDuplicates content) = removeDuplicates content := by
  have hne : splitNl content ≠ [] := splitNl_ne_nil content
  have hp : '\n' ∉ (splitNl content).headI :=
    splitNl_no_nl content _ (headI_mem_of_ne_nil hne)
  have hkey : removeDuplicates content =
      (splitNl content).headI ++ '\n' :: '\n' ::
        joinNl (dedupLoop [] ((splitNl content).drop 2)) := rfl
  rcases hus : dedupLoop [] ((splitNl content).drop 2) with _ | ⟨u, us'⟩
  · rw [hkey, hus]
    simpa only [joinNl] using rd_fixed_nil _ hp
  · rw [hkey, hus, ← hus]
    refine rd_fixed_cons _ _ hp ?_ (by rw [hus]; simp) (dedupLoop_idem _ _)
    intro x hx
    exact splitNl_no_nl content x (List.mem_of_mem_drop (dedupLoop_subset _ _ x hx))

theorem dedupLoop_congr (ls : List JStr) :
    ∀ s t, (∀ k, k ∈ s ↔ k ∈ t) → dedupLoop s ls = dedupLoop t ls := by
  induction ls with
  | nil => intro s t _; simp [dedupLoop]
  | cons l ls ih =>
    intro s t hst
    rcases h : examKeyRD l with _ | k
    · simp only [dedupLoop, h]
      rw [ih s t hst]
    · by_cases hk : k ∈ s
      · simp only [dedupLoop, h, if_pos hk, if_pos ((hst k).mp hk)]
        exact ih s t hst
      · have hk' : k ∉ t := fun h' => hk ((hst k).mpr h')
        simp only [dedupLoop, h, if_neg hk, if_neg hk']
        rw [ih (k :: s) (k :: t) (by intro k'; simp [hst k'])]

theorem filter_keepKey {k l : JStr} (ls : List JStr) (h : examKeyRD l ≠ some k) :
    List.filter (fun x => examKeyRD x != some k) (l :: ls) =
      l :: List.filter (fun x => examKeyRD x != some k) ls := by
  have hb : (examKeyRD l != some k) = true := by
    simpa [bne_iff_ne] using h
  simp [List.filter_cons, hb]

theorem filter_dropKey {k l : JStr} (ls : List JStr) (h : examKeyRD l = some k) :
    List.filter (fun x => examKeyRD x != some k) (l :: ls) =
      List.filter (fun x => examKeyRD x != some k) ls := by
  have hb : (examKeyRD l != some k) = false := by simp [h]
  simp [List.filter_cons, hb]

theorem dedupLoop_filter (k : JStr) (ls : List JStr) :
    ∀ s, dedupLoop (k :: s) ls = dedupLoop s (ls.filter (fun l => examKeyRD l != some k)) := by
  induction ls with
  | nil => intro s; simp [dedupLoop]
  | cons l ls ih =>
    intro s
    rcases h : examKeyRD l with _ | k'
    · rw [filter_keepKey ls (by simp [h])]
      simp only [dedupLoop, h]
      rw [ih s]
    · by_cases hkk : k' = k
      · subst hkk
        rw [filter_dropKey ls h]
        simp only [dedupLoop, h, if_pos (List.mem_cons_self k' s)]
        exact ih s
      · rw [filter_keepKey ls (by simp [h, hkk])]
        by_cases hs : k' ∈ s
        · have hs' : k' ∈ k :: s := List.mem_cons_of_mem k hs
          simp only [dedupLoop, h, if_pos hs', if_pos hs]
          exact ih s
        · have hs' : k' ∉ k :: s := by
            intro hmem
            rcases List.mem_cons.mp hmem with h' | h'
            · exact hkk h'
            · exact hs h'
          simp only [dedupLoop, h, if_neg hs', if_neg hs]
          rw [dedupLoop_congr ls (k' :: k :: s) (k :: k' :: s) (by intro k''; constructor <;>
            (intro hm; simp at hm; rcases hm with hm | hm | hm <;> simp [hm]))]
          rw [ih (k' :: s)]

theorem dedupLoop_eq_firstOccDedup_aux :
    ∀ n (ls : List JStr), ls.length ≤ n → dedupLoop [] ls = firstOccDedup ls := by
  intro n
  induction n with
  | zero =>
    intro ls h
    have : ls = [] := List.eq_nil_of_length_eq_zero (Nat.le_zero.mp h)
    subst this
    simp [dedupLoop, firstOccDedup]
  | succ n ih =>
    intro ls h
    rcases ls with _ | ⟨l, ls'⟩
    · simp [dedupLoop, firstOccDedup]
    · rcases hk : examKeyRD l with _ | k
      · simp only [dedupLoop, firstOccDedup, hk]
        rw [ih ls' (Nat.le_of_succ_le_succ h)]
      · simp only [dedupLoop, firstOccDedup, hk, if_neg (List.not_mem_nil k)]
        rw [dedupLoop_filter k ls' []]
        rw [ih _ (le_trans (List.length_filter_le _ _) (Nat.le_of_succ_le_succ h))]

theorem dedupLoop_eq_firstOccDedup (ls : List JStr) : dedupLoop [] ls = firstOccDedup ls :=
  dedupLoop_eq_firstOccDedup_aux ls.length ls (le_refl _)

theorem firstOccDedup_count_keyless_aux :
    ∀ n (xs : List JStr) (l : JStr), examKeyRD l = none → xs.length ≤ n →
      List.count l (firstOccDedup xs) = List.count l xs := by
  intro n
  induction n with
  | zero =>
    intro xs l _ h
    have : xs = [] := List.eq_nil_of_length_eq_zero (Nat.le_zero.mp h)
    subst this
    simp [firstOccDedup]
  | succ n ih =>
    intro xs l hl h
    rcases xs with _ | ⟨x, xs'⟩
    · simp [firstOccDedup]
    · rcases hx : examKeyRD x with _ | k
      · simp only [firstOccDedup, hx]
        rw [List.count_cons, List.count_cons, ih xs' l hl (Nat.le_of_succ_le_succ h)]
      · have hlx : l ≠ x := fun he => by rw [he, hx] at hl; exact Option.noConfusion hl
        have hp : (fun l₂ => examKeyRD l₂ != some k) l = true := by simp [hl]
        simp only [firstOccDedup, hx]
        rw [List.count_cons, List.count_cons,
          ih _ l hl (le_trans (List.length_filter_le _ _) (Nat.le_of_succ_le_succ h)),
          List.count_filter (a := l) hp]

/-- C10: `removeDuplicates` keeps the first input line verbatim as the patient
header, discards the second input line (the output always has a blank second
line, whatever the input's second line contained), deduplicates only the lines
from the third onward by the trimmed text before the first `:` (first
occurrence wins), and retains every keyless line — in particular every line
with no `:` — including repeated occurrences of such lines (their
multiplicity is preserved). -/
theorem removeDuplicates_structure :
    (∀ content : JStr, removeDuplicates content =
        (splitNl content).headI ++ '\n' :: '\n' ::
          joinNl (firstOccDedup ((splitNl content).drop 2)))
    ∧ (∀ (l : JStr) (xs : List JStr), examKeyRD l = none →
        List.count l (firstOccDedup xs) = List.count l xs) := by
  constructor
  · intro content
    show (splitNl content).headI ++ '\n' :: '\n' ::
        joinNl (dedupLoop [] ((splitNl content).drop 2)) = _
    rw [dedupLoop_eq_firstOccDedup]
  · intro l xs hl
    exact firstOccDedup_count_keyless_aux xs.length xs l hl (le_refl _)

def wNoteLine : JStr := "observacao geral".data

def wExamLines : List JStr :=
  ["Glicose: 95".data, "observacao geral".data, "Glicose: 99".data, "observacao geral".data]

/-- Witness for C10 at a concrete input: a colon-free line is keyless and its
multiplicity is preserved by the dedup step. -/
theorem removeDuplicates_structure_witness :
    examKeyRD wNoteLine = none ∧
    List.count wNoteLine (firstOccDedup wExamLines) = List.count wNoteLine wExamLines :=
  ⟨by decide, removeDuplicates_structure.2 wNoteLine wExamLines (by decide)⟩

/-- JS regex word-character class `\w`, i.e. `[A-Za-z0-9_]`. -/
def isWordChar (c : Char) : Bool := c.isAlphanum || c = '_'

/-- Whether a word occurs at the head of `s` with a right-hand `\b` boundary. -/
def wordAtHead (w s : JStr) : Bool :=
  w.isPrefixOf s &&
    (match s.drop w.length with
     | [] => true
     | c :: _ => !isWordChar c)

/-- Scan of `s` for an occurrence of the (all-letter) word `w` whose left
context is a word boundary; the Bool argument records whether the current
position sits at a boundary. -/
def containsWordAux (w : JStr) : Bool → JStr → Bool
  | b, [] => b && wordAtHead w []
  | b, c :: cs => (b && wordAtHead w (c :: cs)) || containsWordAux w (!isWordChar c) cs

/-- JS `/\bw\b/.test(s)` for an all-letter word `w`. -/
def containsWord (w s : JStr) : Bool := containsWordAux w true s

/-- JS `/\b(w₁|w₂|…)\b/.test(name)`. -/
def synAny (ws : List JStr) (name : JStr) : Bool := ws.any (fun w => containsWord w name)

def tgoKey : JStr := "tgo".data

def tgpKey : JStr := "tgp".data

def ggtKey : JStr := "ggt".data

def glicoseKey : JStr := "glicose".data

/-- Synonym folding of `generateSummaries` (src/index.js lines 331-336). -/
def canonFold (name : JStr) : JStr :=
  if synAny [tgoKey, "ast".data, "aspartato".data] name then tgoKey
  else if synAny [tgpKey, "alt".data, "alanina".data] name then tgpKey
  else if synAny ["gamma".data, "gama".data, ggtKey] name then ggtKey
  else if synAny [glicoseKey, "glicemia".data] name then glicoseKey
  else name

/-- JS `line.replace(/^-\s*/, '')`. -/
def stripHyphen : JStr → JStr
  | '-' :: rest => rest.dropWhile isJsWs
  | l => l

/-- What the per-line processing of `generateSummaries` does with one line. -/
inductive LineAct
  | skip
  | plain (l : JStr)
  | keyed (l : JStr) (k : JStr)
deriving DecidableEq, Repr

/-- Per-line processing of `generateSummaries` (src/index.js lines 319-347):
blank lines are skipped; a leading bullet is stripped and the line trimmed;
lines matching `/^([^:]+):/` are keyed by the trimmed, lower-cased,
synonym-folded exam name; all other lines are kept unconditionally.
JS `toLowerCase` is modelled by ASCII `Char.toLower`; every word of the
fixed synonym table is ASCII. -/
def lineAct (line : JStr) : LineAct :=
  if jsTrim line = [] then .skip
  else
    let l := jsTrim (stripHyphen line)
    match preColon l with
    | some pre => .keyed l (canonFold ((jsTrim pre).map Char.toLower))
    | none => .plain l

/-- The canonical key the merge uses for a line, when it has one. -/
def actKey (line : JStr) : Option JStr :=
  match lineAct line with
  | .keyed _ k => some k
  | _ => none

/-- Merge state: the document-global `seenExams` set and accumulated lines. -/
structure MergeSt where
  seen : List JStr
  res : List JStr

/-- The `extractedLines.forEach(...)` loop over one chunk's extracted lines. -/
def procChunk (st : MergeSt) : List JStr → MergeSt
  | [] => st
  | line :: rest =>
    match lineAct line with
    | .skip => procChunk st rest
    | .plain l => procChunk ⟨st.seen, st.res ++ [l]⟩ rest
    | .keyed l k =>
      if k ∈ st.seen then procChunk st rest
      else procChunk ⟨k :: st.seen, st.res ++ [l]⟩ rest

/-- One page of `generateSummaries`: `pageResults` starts empty and the
chunks of the page are processed in order against the global set. -/
def procPage (seen : List JStr) (chunks : List (List JStr)) : MergeSt :=
  chunks.foldl (fun st chunk => procChunk st chunk) ⟨seen, []⟩

/-- The dedup/merge of `generateSummaries` (src/index.js lines 248-356)
restricted to executions in which no chunk extraction call throws: for each
page (list of chunks, each chunk the list of lines returned by the
extraction capability for that chunk) the page results are computed against
the single document-global `seenExams` set and appended to `allResults`.
The page-level try/catch of the source — a thrown chunk call discards the
page's staged `pageResults` while the keys already added to `seenExams`
persist — is modelled by `mergeLinesE` below, which takes each chunk's
outcome as an `Except` value and agrees with this function on throw-free
executions. -/
def mergeLines (pages : List (List (List JStr))) : List JStr :=
  (pages.foldl (fun (st : MergeSt) page =>
      let p := procPage st.seen page
      ⟨p.seen, st.res ++ p.res⟩) (⟨[], []⟩ : MergeSt)).res

/-- Final content assembled by `generateSummaries` (src/index.js line 359):
header line, blank line, then the merged result lines. -/
def generateSummariesContent (pages : List (List (List JStr))) (patientName : JStr) : JStr :=
  "Paciente: ".data ++ patientName ++ '\n' :: '\n' :: joinNl (mergeLines pages)

/-- Single-list form of the merge loop, used to relate the nested loops to
a single pass over the flattened document. -/
def mergeFold (seen : List JStr) : List JStr → List JStr
  | [] => []
  | line :: rest =>
    match lineAct line with
    | .skip => mergeFold seen rest
    | .plain l => l :: mergeFold seen rest
    | .keyed l k => if k ∈ seen then mergeFold seen rest else l :: mergeFold (k :: seen) rest

/-- The `seenExams` set after a single pass. -/
def seenAfter (seen : List JStr) : List JStr → List JStr
  | [] => seen
  | line :: rest =>
    match lineAct line with
    | .skip => seenAfter seen rest
    | .plain _ => seenAfter seen rest
    | .keyed _ k => if k ∈ seen then seenAfter seen rest else seenAfter (k :: seen) rest

/-- Specification-style first-occurrence merge over the flattened document:
each keyed line deletes all later lines bearing the same canonical key. -/
def specMerge : List JStr → List JStr
  | [] => []
  | line :: rest =>
    match lineAct line with
    | .skip => specMerge rest
    | .plain l => l :: specMerge rest
    | .keyed l k => l :: specMerge (rest.filter (fun l₂ => actKey l₂ != some k))
termination_by xs => xs.length
decreasing_by
  all_goals first
    | exact Nat.lt_succ_self _
    | exact Nat.lt_succ_of_le (List.length_filter_le _ _)

theorem procChunk_eq (xs : List JStr) :
    ∀ st : MergeSt, procChunk st xs = ⟨seenAfter st.seen xs, st.res ++ mergeFold st.seen xs⟩ := by
  induction xs with
  | nil => intro st; simp [procChunk, seenAfter, mergeFold]
  | cons line rest ih =>
    intro st
    rcases h : lineAct line with _ | l | ⟨l, k⟩
    · simp only [procChunk, seenAfter, mergeFold, h]
      exact ih st
    · simp only [procChunk, seenAfter, mergeFold, h]
      rw [ih ⟨st.seen, st.res ++ [l]⟩]
      simp
    · by_cases hk : k ∈ st.seen
      · simp only [procChunk, seenAfter, mergeFold, h, if_pos hk]
        exact ih st
      · simp only [procChunk, seenAfter, mergeFold, h, if_neg hk]
        rw [ih ⟨k :: st.seen, st.res ++ [l]⟩]
        simp

theorem seenAfter_append (xs : List JStr) :
    ∀ ys seen, seenAfter seen (xs ++ ys) = seenAfter (seenAfter seen xs) ys := by
  induction xs with
  | nil => intro ys seen; simp [seenAfter]
  | cons line rest ih =>
    intro ys seen
    rcases h : lineAct line with _ | l | ⟨l, k⟩
    · simp only [List.cons_append, seenAfter, h]; exact ih ys seen
    · simp only [List.cons_append, seenAfter, h]; exact ih ys seen
    · by_cases hk : k ∈ seen
      · simp only [List.cons_append, seenAfter, h, if_pos hk]; exact ih ys seen
      · simp only [List.cons_append, seenAfter, h, if_neg hk]; exact ih ys (k :: seen)

theorem mergeFold_append (xs : List JStr) :
    ∀ ys seen, mergeFold seen (xs ++ ys) =
      mergeFold seen xs ++ mergeFold (seenAfter seen xs) ys := by
  induction xs with
  | nil => intro ys seen; simp [mergeFold, seenAfter]
  | cons line rest ih =>
    intro ys seen
    rcases h : lineAct line with _ | l | ⟨l, k⟩
    · simp only [List.cons_append, mergeFold, seenAfter, h]; exact ih ys seen
    · simp only [List.cons_append, mergeFold, seenAfter, h, List.append_eq]
      rw [ih ys seen]
    · by_cases hk : k ∈ seen
      · simp only [List.cons_append, mergeFold, seenAfter, h, if_pos hk]; exact ih ys seen
      · simp only [List.cons_append, mergeFold, seenAfter, h, if_neg hk, List.append_eq]
        rw [ih ys (k :: seen)]

theorem procPage_foldl_eq (chunks : List (List JStr)) :
    ∀ st : MergeSt, chunks.foldl (fun st chunk => procChunk st chunk) st =
      ⟨seenAfter st.seen chunks.flatten, st.res ++ mergeFold st.seen chunks.flatten⟩ := by
  induction chunks with
  | nil => intro st; simp [List.flatten, seenAfter, mergeFold]
  | cons c cs ih =>
    intro st
    simp only [List.foldl_cons, List.flatten_cons]
    rw [procChunk_eq c st, ih ⟨seenAfter st.seen c, st.res ++ mergeFold st.seen c⟩]
    simp only [seenAfter_append, mergeFold_append, List.append_assoc]

theorem procPage_eq (seen : List JStr) (chunks : List (List JStr)) :
    procPage seen chunks = ⟨seenAfter seen chunks.flatten, mergeFold seen chunks.flatten⟩ := by
  unfold procPage
  rw [procPage_foldl_eq]
  simp

theorem mergeLines_eq (pages : List (List (List JStr))) :
    mergeLines pages = mergeFold [] pages.flatten.flatten := by
  suffices h : ∀ (ps : List (List (List JStr))) (st : MergeSt),
      ps.foldl (fun (st : MergeSt) page =>
        let p := procPage st.seen page
        ⟨p.seen, st.res ++ p.res⟩) st =
      ⟨seenAfter st.seen ps.flatten.flatten, st.res ++ mergeFold st.seen ps.flatten.flatten⟩ by
    unfold mergeLines
    rw [h pages ⟨[], []⟩]
    simp
  intro ps
  induction ps with
  | nil => intro st; simp [List.flatten, seenAfter, mergeFold]
  | cons page ps ih =>
    intro st
    simp only [List.foldl_cons, List.flatten_cons, List.flatten_append]
    rw [procPage_eq, ih]
    simp only [seenAfter_append, mergeFold_append, List.append_assoc]

theorem mergeFold_congr (xs : List JStr) :
    ∀ s t, (∀ k, k ∈ s ↔ k ∈ t) → mergeFold s xs = mergeFold t xs := by
  induction xs with
  | nil => intro s t _; simp [mergeFold]
  | cons line rest ih =>
    intro s t hst
    rcases h : lineAct line with _ | l | ⟨l, k⟩
    · simp only [mergeFold, h]; exact ih s t hst
    · simp only [mergeFold, h]; rw [ih s t hst]
    · by_cases hk : k ∈ s
      · simp only [mergeFold, h, if_pos hk, if_pos ((hst k).mp hk)]
        exact ih s t hst
      · have hk' : k ∉ t := fun h' => hk ((hst k).mpr h')
        simp only [mergeFold, h, if_neg hk, if_neg hk']
        rw [ih (k :: s) (k :: t) (by intro k'; simp [hst k'])]

theorem mergeFilter_keepKey {k line : JStr} (ls : List JStr) (h : actKey line ≠ some k) :
    List.filter (fun x => actKey x != some k) (line :: ls) =
      line :: List.filter (fun x => actKey x != some k) ls := by
  have hb : (actKey line != some k) = true := by
    simpa [bne_iff_ne] using h
  simp [List.filter_cons, hb]

theorem mergeFilter_dropKey {k line : JStr} (ls : List JStr) (h : actKey line = some k) :
    List.filter (fun x => actKey x != some k) (line :: ls) =
      List.filter (fun x => actKey x != some k) ls := by
  have hb : (actKey line != some k) = false := by simp [h]
  simp [List.filter_cons, hb]

theorem mergeFold_filter (k : JStr) (ls : List JStr) :
    ∀ s, mergeFold (k :: s) ls = mergeFold s (ls.filter (fun l => actKey l != some k)) := by
  induction ls with
  | nil => intro s; simp [mergeFold]
  | cons line rest ih =>
    intro s
    rcases h : lineAct line with _ | l | ⟨l, k'⟩
    · rw [mergeFilter_keepKey rest (by simp [actKey, h])]
      simp only [mergeFold, h]
      exact ih s
    · rw [mergeFilter_keepKey rest (by simp [actKey, h])]
      simp only [mergeFold, h]
      rw [ih s]
    · have hak : actKey line = some k' := by simp [actKey, h]
      by_cases hkk : k' = k
      · subst hkk
        rw [mergeFilter_dropKey rest hak]
        simp only [mergeFold, h, if_pos (List.mem_cons_self k' s)]
        exact ih s
      · rw [mergeFilter_keepKey rest (by simp [hak, hkk])]
        by_cases hs : k' ∈ s
        · have hs' : k' ∈ k :: s := List.mem_cons_of_mem k hs
          simp only [mergeFold, h, if_pos hs', if_pos hs]
          exact ih s
        · have hs' : k' ∉ k :: s := by
            intro hmem
            rcases List.mem_cons.mp hmem with h' | h'
            · exact hkk h'
            · exact hs h'
          simp only [mergeFold, h, if_neg hs', if_neg hs]
          rw [mergeFold_congr rest (k' :: k :: s) (k :: k' :: s) (by intro k''; constructor <;>
            (intro hm; simp at hm; rcases hm with hm | hm | hm <;> simp [hm]))]
          rw [ih (k' :: s)]

theorem mergeFold_eq_specMerge_aux :
    ∀ n (ls : List JStr), ls.length ≤ n → mergeFold [] ls = specMerge ls := by
  intro n
  induction n with
  | zero =>
    intro ls h
    have : ls = [] := List.eq_nil_of_length_eq_zero (Nat.le_zero.mp h)
    subst this
    simp [mergeFold, specMerge]
  | succ n ih =>
    intro ls h
    rcases ls with _ | ⟨line, ls'⟩
    · simp [mergeFold, specMerge]
    · rcases hk : lineAct line with _ | l | ⟨l, k⟩
      · simp only [mergeFold, specMerge, hk]
        exact ih ls' (Nat.le_of_succ_le_succ h)
      · simp only [mergeFold, specMerge, hk]
        rw [ih ls' (Nat.le_of_succ_le_succ h)]
      · simp only [mergeFold, specMerge, hk, if_neg (List.not_mem_nil k)]
        rw [mergeFold_filter k ls' []]
        rw [ih _ (le_trans (List.length_filter_le _ _) (Nat.le_of_succ_le_succ h))]

theorem mergeFold_eq_specMerge (ls : List JStr) : mergeFold [] ls = specMerge ls :=
  mergeFold_eq_specMerge_aux ls.length ls (le_refl _)

def c1PageOne : List (List JStr) := [["Glicose: 95".data, "TSH: 2,1".data]]

def c1PageTwo : List (List JStr) := [["Glicose: 97".data, "Ureia: 30".data]]

def c1Expected : List JStr := ["Glicose: 95".data, "TSH: 2,1".data, "Ureia: 30".data]

/-- One page of `generateSummaries` with its page-level try/catch
(src/index.js lines 252-356): the chunks' extraction outcomes are
processed in order against the threaded state; a thrown chunk call
(`Except.error`) aborts the chunk loop and hits the catch, which discards
the page's staged `pageResults`, while the canonical keys already inserted
into the document-global mutable `seenExams` set persist.  Returns the
`seenExams` set after the page and the lines the page contributes to
`allResults`. -/
def procPageE : MergeSt → List (Except JStr (List JStr)) → List JStr × List JStr
  | st, [] => (st.seen, st.res)
  | st, Except.error _ :: _ => (st.seen, [])
  | st, Except.ok lines :: rest => procPageE (procChunk st lines) rest

/-- The dedup/merge of `generateSummaries` over the real chunk outcomes,
including the page-level try/catch: each page's contribution is computed by
`procPageE` against the document-global set and appended to
`allResults`. -/
def mergeLinesE (pages : List (List (Except JStr (List JStr)))) : List JStr :=
  (pages.foldl (fun (st : MergeSt) page =>
      let p := procPageE ⟨st.seen, []⟩ page
      ⟨p.1, st.res ++ p.2⟩) (⟨[], []⟩ : MergeSt)).res

theorem procPageE_ok (chunks : List (List JStr)) :
    ∀ st : MergeSt, procPageE st (chunks.map Except.ok) =
      ((chunks.foldl (fun st chunk => procChunk st chunk) st).seen,
       (chunks.foldl (fun st chunk => procChunk st chunk) st).res) := by
  induction chunks with
  | nil => intro st; rfl
  | cons c cs ih =>
    intro st
    simp only [List.map_cons, procPageE, List.foldl_cons]
    exact ih (procChunk st c)

theorem mergeLinesE_ok (pages : List (List (List JStr))) :
    mergeLinesE (pages.map (fun page => page.map Except.ok)) = mergeLines pages := by
  unfold mergeLinesE mergeLines
  suffices h : ∀ (ps : List (List (List JStr))) (st : MergeSt),
      (ps.map (fun page => page.map Except.ok)).foldl
        (fun (st : MergeSt) page =>
          let p := procPageE ⟨st.seen, []⟩ page
          (⟨p.1, st.res ++ p.2⟩ : MergeSt)) st =
      ps.foldl (fun (st : MergeSt) page =>
          let p := procPage st.seen page
          ⟨p.seen, st.res ++ p.res⟩) st by
    rw [h pages ⟨[], []⟩]
  intro ps
  induction ps with
  | nil => intro st; rfl
  | cons page ps ih =>
    intro st
    simp only [List.map_cons, List.foldl_cons]
    rw [procPageE_ok page ⟨st.seen, []⟩]
    exact ih _

def ceThrowMsg : JStr := "Request failed".data

def cePageOne : List (Except JStr (List JStr)) :=
  [Except.ok ["Glicose: 95".data], Except.error ceThrowMsg]

def cePageTwo : List (Except JStr (List JStr)) :=
  [Except.ok ["Glicose: 97".data, "TSH: 2,1".data]]

/-- C1 (counterexample): on the execution where page one's first chunk
returns `Glicose: 95` and its second chunk's extraction call throws, the
page-level catch discards the staged line while the key `glicose` stays in
the document-global `seenExams` set, so page two's `Glicose: 97` is still
discarded as a duplicate: the merged output is `[TSH: 2,1]` — the first
line bearing the canonical key is not kept, refuting the claim that for
every processed document the first line bearing a given canonical key
survives the merge. -/
theorem generateSummaries_page_catch_counterexample :
    mergeLinesE [cePageOne, cePageTwo] = ["TSH: 2,1".data] ∧
    "Glicose: 95".data ∉ mergeLinesE [cePageOne, cePageTwo] ∧
    "Glicose: 97".data ∉ mergeLinesE [cePageOne, cePageTwo] := by
  decide

/-- C1 (amended): on every execution of `generateSummaries` in which no
chunk extraction call throws, the dedup/merge step maintains one set of
canonical exam keys for the whole document: the nested page/chunk loops
compute exactly the first-occurrence-wins merge of the flattened
page-then-chunk line sequence, so the first line bearing a canonical key is
kept, every later line with the same key is discarded regardless of its
page or chunk, and survivors keep their encounter order.  (When a chunk
call does throw, the page-level catch discards that page's staged lines
while their keys persist in the global set — see the counterexample.)  The
second conjunct instantiates the order-preservation example on a throw-free
execution: with `[A, B]` on page one and `[A-duplicate, C]` on page two the
merged output is `[A, B, C]`. -/
theorem generateSummaries_global_dedup_no_throw :
    (∀ pages : List (List (List JStr)),
      mergeLinesE (pages.map (fun page => page.map Except.ok)) =
        specMerge pages.flatten.flatten)
    ∧ mergeLinesE [c1PageOne.map Except.ok, c1PageTwo.map Except.ok] = c1Expected := by
  constructor
  · intro pages
    rw [mergeLinesE_ok, mergeLines_eq, mergeFold_eq_specMerge]
  · decide

/-- C5: two result lines headed by synonymous exam names canonicalise to the
same key and only the first of them (in document order) survives the merge,
even across pages; in particular `AST: 32` and `TGO: 32` both fold to the
canonical key `tgo`. -/
theorem synonym_lines_collapse (l₁ l₂ cl₁ k : JStr)
    (h₁ : lineAct l₁ = LineAct.keyed cl₁ k) (h₂ : actKey l₂ = some k) :
    mergeLines [[[l₁]], [[l₂]]] = [cl₁] ∧
      actKey ("AST: 32".data) = some tgoKey ∧ actKey ("TGO: 32".data) = some tgoKey := by
  refine ⟨?_, by decide, by decide⟩
  have hact₂ : ∃ cl₂, lineAct l₂ = LineAct.keyed cl₂ k := by
    unfold actKey at h₂
    rcases hla : lineAct l₂ with _ | l | ⟨l, k'⟩ <;> rw [hla] at h₂
    · exact absurd h₂ (by simp)
    · exact absurd h₂ (by simp)
    · exact ⟨l, by rw [Option.some_inj.mp h₂]⟩
  rcases hact₂ with ⟨cl₂, hact₂⟩
  rw [mergeLines_eq]
  show mergeFold [] [l₁, l₂] = [cl₁]
  simp only [mergeFold, h₁, hact₂, if_neg (List.not_mem_nil k), if_pos (List.mem_cons_self k [])]

/-- Witness for C5: the two synonymous lines on different pages merge to the
first one. -/
theorem synonym_lines_collapse_witness :
    mergeLines [[["AST: 32".data]], [["TGO: 32".data]]] = ["AST: 32".data] :=
  (synonym_lines_collapse ("AST: 32".data) ("TGO: 32".data) ("AST: 32".data) tgoKey
    (by decide) (by decide)).1

/-- Digits-to-number, as `parseInt` does on the digit run captured by
`/\/P\s+(-?\d+)/` (values in real PDFs fit well inside the exact range). -/
def natOfDigits (ds : JStr) : Nat :=
  ds.foldl (fun acc c => 10 * acc + (c.toNat - 48)) 0

/-- Attempt to match the regex `/\/P\s+(-?\d+)/` at the head of the string:
literal `/P`, at least one whitespace, an optional sign and at least one
digit; gives the parsed integer. -/
def matchPAt : JStr → Option Int
  | '/' :: 'P' :: rest =>
    let ws := rest.takeWhile isJsWs
    if ws.length = 0 then none
    else
      match rest.drop ws.length with
      | '-' :: ds =>
        let digits := ds.takeWhile Char.isDigit
        if digits.length = 0 then none else some (-(natOfDigits digits : Int))
      | ds =>
        let digits := ds.takeWhile Char.isDigit
        if digits.length = 0 then none else some ((natOfDigits digits : Int))
  | _ => none

/-- `content.match(/\/P\s+(-?\d+)/)`: the leftmost match in the scanned
prefix, as an integer. -/
def findP : JStr → Option Int
  | [] => none
  | c :: cs =>
    match matchPAt (c :: cs) with
    | some v => some v
    | none => findP cs

/-- The encryption marker list of `isPdfEncrypted`
(src/utils/pdfDecryptor.js lines 151-154). -/
def encryptionMarkers : List JStr :=
  ["/Encrypt".data, "/Standard".data, "/StdCF".data, "/Crypt".data,
   "/EncryptMetadata".data, "/R ".data, "/O ".data, "/U ".data, "/P ".data]

/-- JS `s.includes(w)`: whether `w` occurs as a contiguous substring. -/
def isSubstr (w : JStr) : JStr → Bool
  | [] => w.isEmpty
  | s@(_ :: cs) => w.isPrefixOf s || isSubstr w cs

/-- `encryptionScore`: how many of the markers occur in the scanned prefix. -/
def encryptionScore (content : JStr) : Nat :=
  encryptionMarkers.countP (fun m => isSubstr m content)

/-- Outcome of the tolerant `PDFDocument.load` call used as secondary check:
either the library reports its `isEncrypted` flag, or it throws with a
message. -/
inductive LibLoad where
  | ok (flag : Bool)
  | err (msg : JStr)
deriving DecidableEq

/-- Whether the `/P` value found in the prefix is negative. -/
def pNegative (content : JStr) : Bool :=
  match findP content with
  | some v => decide (v < 0)
  | none => false

/-- `src/utils/pdfDecryptor.js` lines 122-201, `isPdfEncrypted`, with the
scanned 20000-byte latin1 prefix as `content` and the pdf-lib load outcome
as the oracle `lib` (the enclosing file-read try/catch is not modelled:
`content` is given). -/
def isPdfEncrypted (content : JStr) (lib : LibLoad) : Bool :=
  if pNegative content then true
  else if 3 ≤ encryptionScore content then true
  else
    match lib with
    | .ok flag => flag
    | .err msg =>
      if (isSubstr ("encrypted".data) msg || isSubstr ("password".data) msg ||
          isSubstr ("Encrypt".data) msg) then true
      else (isSubstr ("/Encrypt".data) content || isSubstr ("/Standard".data) content ||
            (isSubstr ("/P ".data) content && isSubstr ("/R ".data) content))

/-- The low 32 bits of the permission integer, as JS bitwise `&` sees them
(`ToInt32` wrapping; sign is irrelevant to a `≠ 0` test on the masked
bits). -/
def toUint32 (v : Int) : Nat := (v % ((2 : Int) ^ 32)).toNat

/-- The permission record decoded by `detectProtectionType`
(src/utils/pdfDecryptor.js lines 36-45). -/
structure PdfPermissions where
  allowPrint : Bool
  allowModify : Bool
  allowCopy : Bool
  allowAnnotations : Bool
  allowForms : Bool
  allowAccessibility : Bool
  allowAssemble : Bool
  allowHighQualityPrint : Bool
deriving DecidableEq, Repr

/-- `(permissionValue & bit) !== 0` for each of the eight decoded bits. -/
def decodePermissions (v : Int) : PdfPermissions where
  allowPrint := toUint32 v &&& 4 != 0
  allowModify := toUint32 v &&& 8 != 0
  allowCopy := toUint32 v &&& 16 != 0
  allowAnnotations := toUint32 v &&& 32 != 0
  allowForms := toUint32 v &&& 256 != 0
  allowAccessibility := toUint32 v &&& 512 != 0
  allowAssemble := toUint32 v &&& 1024 != 0
  allowHighQualityPrint := toUint32 v &&& 2048 != 0

/-- The permissions `detectProtectionType` derives from a scanned prefix:
the `/P` match value, or 0 when the regex does not match. -/
def detectPermissions (content : JStr) : PdfPermissions :=
  decodePermissions ((findP content).getD 0)

/-- `laboratoryReportPattern` of `detectProtectionType`
(src/utils/pdfDecryptor.js lines 60-64, identical in src/unnamed/part_001):
print allowed and copy, modify, annotations and forms denied. -/
def laboratoryReportPattern (v : Int) : Bool :=
  (decodePermissions v).allowPrint && !(decodePermissions v).allowCopy &&
  !(decodePermissions v).allowModify && !(decodePermissions v).allowAnnotations &&
  !(decodePermissions v).allowForms

/-- Formalisation of the claim's wording (refinement side): print is the
only allowed capability among all eight decoded capabilities. -/
def onlyPrintAllowedSpec (v : Int) : Bool :=
  (decodePermissions v).allowPrint && !(decodePermissions v).allowModify &&
  !(decodePermissions v).allowCopy && !(decodePermissions v).allowAnnotations &&
  !(decodePermissions v).allowForms && !(decodePermissions v).allowAccessibility &&
  !(decodePermissions v).allowAssemble && !(decodePermissions v).allowHighQualityPrint

/-- C4 (counterexample): for permission value 516 (print bit 4 and
accessibility bit 512 set) the code's known-pattern flag is true although
print is not the only allowed capability, refuting the claimed
equivalence with "print allowed and every other decoded capability
denied". -/
theorem laboratoryReportPattern_counterexample :
    laboratoryReportPattern 516 = true ∧
    (decodePermissions 516).allowAccessibility = true ∧
    onlyPrintAllowedSpec 516 = false := by
  decide

/-- C4 (amended): `laboratoryReportPattern` (the `isKnownPattern` /
`isLaboratoryReport` flag) is true exactly when the decoded permissions
allow printing and deny copy, modify, annotations and forms; the
accessibility, assemble and high-quality-print capabilities are not
consulted. -/
theorem laboratoryReportPattern_amended (v : Int) :
    laboratoryReportPattern v = true ↔
      ((decodePermissions v).allowPrint = true ∧ (decodePermissions v).allowCopy = false ∧
       (decodePermissions v).allowModify = false ∧
       (decodePermissions v).allowAnnotations = false ∧
       (decodePermissions v).allowForms = false) := by
  unfold laboratoryReportPattern
  simp only [Bool.and_eq_true, Bool.not_eq_true']
  tauto

/-- C2: a scanned prefix whose `/P` permission value is negative is always
classified encrypted; when the `/P` value is 4 and fewer than three
encryption markers occur, the `/P` value alone never decides the outcome —
the classification is exactly the library-reported flag — and the decoded
permissions of such a prefix have `allowPrint = true` (bit value 4). -/
theorem isPdfEncrypted_permission_behaviour :
    (∀ (content : JStr) (lib : LibLoad) (v : Int),
        findP content = some v → v < 0 → isPdfEncrypted content lib = true)
    ∧ (∀ (content : JStr) (flag : Bool),
        findP content = some 4 → encryptionScore content < 3 →
          isPdfEncrypted content (LibLoad.ok flag) = flag)
    ∧ (∀ content : JStr, findP content = some 4 →
        (detectPermissions content).allowPrint = true) := by
  refine ⟨?_, ?_, ?_⟩
  · intro content lib v hf hv
    have hneg : pNegative content = true := by
      unfold pNegative
      rw [hf]
      exact decide_eq_true hv
    unfold isPdfEncrypted
    rw [hneg]
    simp
  · intro content flag hf hsc
    have hneg : pNegative content = false := by
      unfold pNegative
      rw [hf]
      decide
    unfold isPdfEncrypted
    rw [hneg]
    simp [Nat.not_le.mpr hsc]
  · intro content hf
    unfold detectPermissions
    rw [hf]
    decide

/-- Witness for C2 at concrete prefixes: `/P -3844` classifies encrypted,
`/P 4` with one marker defers to the (here: negative) library flag, and
decodes with printing allowed. -/
theorem isPdfEncrypted_permission_witness :
    isPdfEncrypted ("/P -3844".data) (LibLoad.ok false) = true ∧
    isPdfEncrypted ("/P 4".data) (LibLoad.ok false) = false ∧
    (detectPermissions ("/P 4".data)).allowPrint = true :=
  ⟨isPdfEncrypted_permission_behaviour.1 _ (LibLoad.ok false) (-3844) (by decide) (by decide),
   isPdfEncrypted_permission_behaviour.2.1 _ false (by decide) (by decide),
   isPdfEncrypted_permission_behaviour.2.2 _ (by decide)⟩

/-- A page of the document rebuilt by `decryptPdfWithPdfLib`. -/
inductive OutPage where
  | copied (i : Nat)
  | placeholder (marker : JStr)
deriving DecidableEq, Repr

/-- Text drawn on the placeholder page for 1-based page number `n`:
`[Página n não pôde ser recuperada]`. -/
def pageMarker (n : Nat) : JStr :=
  "[Página ".data ++ (Nat.repr n).data ++ " não pôde ser recuperada]".data

/-- The page-copy loop of `decryptPdfWithPdfLib`
(src/utils/pdfDecryptor.js lines 283-307, identical in
src/unnamed/part_001 lines 361-385): `fails i` records whether
`copyPages` throws for 0-based page `i`; on failure the counter is
incremented and — while `errorPages < pageCount` — a placeholder page with
the explicit marker is added (adding the blank page itself does not fail in
the model: the inner drawText try/catch is not exercised on a fresh
document).  Returns `(pagesAdded, errorPages, pages of the new document)`. -/
def copyAux (fails : Nat → Bool) (pageCount : Nat) :
    List Nat → Nat → Nat → Nat × Nat × List OutPage
  | [], a, e => (a, e, [])
  | i :: is, a, e =>
    if fails i then
      let r := copyAux fails pageCount is a (e + 1)
      (r.1, r.2.1,
        (if e + 1 < pageCount then [OutPage.placeholder (pageMarker (i + 1))] else []) ++ r.2.2)
    else
      let r := copyAux fails pageCount is (a + 1) e
      (r.1, r.2.1, OutPage.copied i :: r.2.2)

/-- Result of the copy phase of `decryptPdfWithPdfLib`. -/
structure DecryptOutcome where
  success : Bool
  pages : List OutPage
  pagesAdded : Nat
  errorPages : Nat
  pageCount : Nat
deriving DecidableEq, Repr

/-- `decryptPdfWithPdfLib` after a successful tolerant load: run the copy
loop over all pages, then fail iff `pagesAdded === 0`
(src/utils/pdfDecryptor.js lines 279-334). -/
def decryptCopy (fails : Nat → Bool) (pageCount : Nat) : DecryptOutcome :=
  let r := copyAux fails pageCount (List.range pageCount) 0 0
  if r.1 = 0 then ⟨false, [], r.1, r.2.1, pageCount⟩
  else ⟨true, r.2.2, r.1, r.2.1, pageCount⟩

theorem copyAux_counts (fails : Nat → Bool) (n : Nat) :
    ∀ (is : List Nat) (a e : Nat),
      (copyAux fails n is a e).1 = a + is.countP (fun i => !fails i) ∧
      (copyAux fails n is a e).2.1 = e + is.countP fails := by
  intro is
  induction is with
  | nil => intro a e; simp [copyAux]
  | cons i is ih =>
    intro a e
    by_cases hi : fails i = true
    · simp only [copyAux, hi, if_pos rfl, List.countP_cons, hi]
      constructor
      · rw [(ih a (e + 1)).1]
        simp
      · rw [(ih a (e + 1)).2]
        simp [Nat.add_assoc, Nat.add_comm 1]
    · have hi' : fails i = false := by simpa using hi
      simp only [copyAux, hi', List.countP_cons]
      constructor
      · rw [(ih (a + 1) e).1]
        simp [hi', Nat.add_assoc, Nat.add_comm 1]
      · rw [(ih (a + 1) e).2]
        simp [hi']

theorem copyAux_spec (fails : Nat → Bool) (n : Nat) :
    ∀ (is : List Nat) (a e : Nat), e + is.countP fails < n →
      (copyAux fails n is a e).2.2 =
        is.map (fun i =>
          if fails i then OutPage.placeholder (pageMarker (i + 1)) else OutPage.copied i) := by
  intro is
  induction is with
  | nil => intro a e _; simp [copyAux]
  | cons i is ih =>
    intro a e h
    by_cases hi : fails i = true
    · have hcnt : (i :: is).countP fails = is.countP fails + 1 := by
        simp [List.countP_cons, hi]
      have h' : (e + 1) + is.countP fails < n := by omega
      have hguard : e + 1 < n := by omega
      simp only [copyAux, hi, if_pos rfl, if_pos hguard, List.map_cons]
      rw [ih a (e + 1) h']
      simp [hi]
    · have hi' : fails i = false := by simpa using hi
      have hcnt : (i :: is).countP fails = is.countP fails := by
        simp [List.countP_cons, hi']
      have h' : e + is.countP fails < n := by omega
      simp only [copyAux, hi', List.map_cons]
      rw [ih (a + 1) e h']
      simp [hi']

theorem countP_add_countP_not {α : Type} (p : α → Bool) (l : List α) :
    l.countP p + l.countP (fun x => !p x) = l.length := by
  induction l with
  | nil => simp
  | cons x xs ih =>
    by_cases hx : p x = true
    · simp [List.countP_cons, hx]
      omega
    · have hx' : p x = false := by simpa using hx
      simp [List.countP_cons, hx']
      omega

/-- C6: whenever `decryptPdfWithPdfLib`'s copy phase declares success (at
least one page copied), every page of the tolerant-loaded original that
failed to copy appears in the new document as a placeholder page carrying
the explicit "page N unrecoverable" marker, so the output page count equals
the original page count, and the number of failed pages is returned as the
`errorPages` counter; the copy phase declares failure exactly when zero
pages were copied. -/
theorem decryptCopy_success_spec (fails : Nat → Bool) (n : Nat) :
    ((decryptCopy fails n).success = true →
      (decryptCopy fails n).pages =
        (List.range n).map (fun i =>
          if fails i then OutPage.placeholder (pageMarker (i + 1)) else OutPage.copied i) ∧
      (decryptCopy fails n).pages.length = n ∧
      (decryptCopy fails n).errorPages = (List.range n).countP fails)
    ∧ ((decryptCopy fails n).success = false ↔
        (List.range n).countP (fun i => !fails i) = 0) := by
  have hcounts := copyAux_counts fails n (List.range n) 0 0
  have htot := countP_add_countP_not fails (List.range n)
  have hlen : (List.range n).length = n := List.length_range n
  constructor
  · intro hs
    have hne : (copyAux fails n (List.range n) 0 0).1 ≠ 0 := by
      intro h0
      unfold decryptCopy at hs
      rw [if_pos h0] at hs
      exact Bool.false_ne_true hs
    have hpos : 0 < (List.range n).countP (fun i => !fails i) := by
      rcases Nat.eq_zero_or_pos ((List.range n).countP (fun i => !fails i)) with h | h
      · exact absurd (by rw [hcounts.1, h] : (copyAux fails n (List.range n) 0 0).1 = 0) hne
      · exact h
    have hguard : 0 + (List.range n).countP fails < n := by omega
    have hpages := copyAux_spec fails n (List.range n) 0 0 hguard
    have hout : decryptCopy fails n =
        ⟨true, (copyAux fails n (List.range n) 0 0).2.2,
         (copyAux fails n (List.range n) 0 0).1,
         (copyAux fails n (List.range n) 0 0).2.1, n⟩ := by
      unfold decryptCopy
      rw [if_neg hne]
    rw [hout]
    refine ⟨hpages, ?_, ?_⟩
    · rw [hpages]
      simp
    · rw [hcounts.2]
      simp
  · unfold decryptCopy
    by_cases h0 : (copyAux fails n (List.range n) 0 0).1 = 0
    · rw [if_pos h0]
      simp only [true_iff]
      rw [hcounts.1] at h0
      omega
    · rw [if_neg h0]
      simp only [Bool.true_eq_false, false_iff]
      rw [hcounts.1] at h0
      omega

/-- Witness for C6: three pages of which only page 2 (0-based index 1)
fails to copy — the decrypt succeeds, the failed page is replaced by its
marker placeholder, the page count is preserved and `errorPages = 1`. -/
theorem decryptCopy_success_witness :
    (decryptCopy (fun i => i == 1) 3).success = true ∧
    ((decryptCopy (fun i => i == 1) 3).pages =
        (List.range 3).map (fun i =>
          if (i == 1 : Bool) then OutPage.placeholder (pageMarker (i + 1)) else OutPage.copied i) ∧
      (decryptCopy (fun i => i == 1) 3).pages.length = 3 ∧
      (decryptCopy (fun i => i == 1) 3).errorPages = (List.range 3).countP (fun i => i == 1)) :=
  ⟨by decide, (decryptCopy_success_spec (fun i => i == 1) 3).1 (by decide)⟩

/-- Identity of a buffer returned by `splitPDF`: the original upload buffer
or a newly assembled part. -/
inductive PdfBuf where
  | original
  | part (i : Nat)
deriving DecidableEq, Repr

/-- Behaviour of the pdf-lib collaborator during `splitPDF`: whether any of
the cascaded load strategies succeeds (and with which page count), whether
`copyPages` succeeds per page index, whether the blank placeholder page can
be added, and whether creating/saving part `i` succeeds. -/
structure SplitOracle where
  load : Option Nat
  copyOk : Nat → Bool
  blankOk : Nat → Bool
  partOk : Nat → Bool

/-- One iteration of the part loop of `splitPDF`
(src/utils/pdfSplitter.js lines 85-136): copy the pages of the slice
`[i*p, min((i+1)*p, pageCount))`, count `pagesAdded`, and push the part iff
`pagesAdded > 0 || newPdfDoc.getPageCount() > 0` and the create/save does
not throw. -/
def mkPart (o : SplitOracle) (p pageCount i : Nat) : Option PdfBuf :=
  let idxs := List.range' (i * p) (min ((i + 1) * p) pageCount - i * p)
  let pagesAdded := idxs.countP o.copyOk
  let docCount := idxs.countP (fun j => o.copyOk j || o.blankOk j)
  if (0 < pagesAdded ∨ 0 < docCount) ∧ o.partOk i then some (PdfBuf.part i) else none

/-- `src/utils/pdfSplitter.js` lines 11-152, `splitPDF(pdfBuffer,
pagesPerPart)` over the pdf-lib oracle.  `none` models a call that never
resolves: when `pagesPerPart = 0` and the guards are passed, JS computes
`numberOfParts = Math.ceil(pageCount / 0) = Infinity` and the part loop
`for (let i = 0; i < numberOfParts; i++)` never terminates (no iteration
can push a part, since every slice is empty).  Every other path returns
either the parts or `[pdfBuffer]`. -/
def splitPDF (bufLen pagesPerPart : Nat) (o : SplitOracle) : Option (List PdfBuf) :=
  match o.load with
  | none => some [PdfBuf.original]
  | some pageCount =>
    if pageCount ≤ pagesPerPart then some [PdfBuf.original]
    else if bufLen < 1048576 then some [PdfBuf.original]
    else if pagesPerPart = 0 then none
    else
      if (List.range ((pageCount + pagesPerPart - 1) / pagesPerPart)).filterMap
          (mkPart o pagesPerPart pageCount) = [] then some [PdfBuf.original]
      else some ((List.range ((pageCount + pagesPerPart - 1) / pagesPerPart)).filterMap
          (mkPart o pagesPerPart pageCount))

def hangOracle : SplitOracle :=
  ⟨some 6, fun _ => true, fun _ => true, fun _ => true⟩

/-- C9 (counterexample): with `pagesPerPart = 0`, a loadable six-page
document and a buffer of at least 1MB, `splitPDF` never resolves (the JS
part loop runs forever because `Math.ceil(pageCount / 0)` is `Infinity`),
refuting "for every pages-per-part value, splitPDF resolves with a
non-empty array". -/
theorem splitPDF_zero_pagesPerPart_counterexample :
    splitPDF 1048576 0 hangOracle = none := by
  decide

/-- C9 (amended): for every input buffer and every positive pages-per-part
value, `splitPDF` resolves with a non-empty array of buffers, and whenever
the document cannot be loaded, has no more pages than pages-per-part, is
smaller than 1MB, or no valid part can be created, the result is exactly
the original buffer as its single element. -/
theorem splitPDF_resolves (bufLen pagesPerPart : Nat) (o : SplitOracle)
    (hp : 0 < pagesPerPart) :
    ∃ l, splitPDF bufLen pagesPerPart o = some l ∧ l ≠ [] ∧
      ((o.load = none ∨ (∃ n, o.load = some n ∧ n ≤ pagesPerPart) ∨ bufLen < 1048576 ∨
          (∀ i, mkPart o pagesPerPart (o.load.getD 0) i = none)) →
        l = [PdfBuf.original]) := by
  rcases ho : o.load with _ | n
  · simp only [splitPDF, ho]
    exact ⟨[PdfBuf.original], rfl, by simp, fun _ => rfl⟩
  · simp only [splitPDF, ho]
    by_cases h1 : n ≤ pagesPerPart
    · rw [if_pos h1]
      exact ⟨[PdfBuf.original], rfl, by simp, fun _ => rfl⟩
    · rw [if_neg h1]
      by_cases h2 : bufLen < 1048576
      · rw [if_pos h2]
        exact ⟨[PdfBuf.original], rfl, by simp, fun _ => rfl⟩
      · rw [if_neg h2, if_neg (Nat.pos_iff_ne_zero.mp hp)]
        by_cases h3 : (List.range ((n + pagesPerPart - 1) / pagesPerPart)).filterMap
            (mkPart o pagesPerPart n) = []
        · rw [if_pos h3]
          exact ⟨[PdfBuf.original], rfl, by simp, fun _ => rfl⟩
        · rw [if_neg h3]
          refine ⟨_, rfl, h3, ?_⟩
          intro hcond
          exfalso
          rcases hcond with hc | ⟨m, hm, hle⟩ | hc | hc
          · exact Option.noConfusion hc
          · refine h1 ?_
            rw [Option.some_inj.mp hm]
            exact hle
          · exact h2 hc
          · refine h3 (List.filterMap_eq_nil_iff.mpr ?_)
            intro i _
            simpa using hc i

def smallOracle : SplitOracle :=
  ⟨some 3, fun _ => true, fun _ => true, fun _ => true⟩

/-- Witness for C9 (amended) at a concrete input: a three-page document
with pages-per-part 5 is returned unsplit as the single original buffer. -/
theorem splitPDF_resolves_witness :
    0 < 5 ∧ ∃ l, splitPDF 10 5 smallOracle = some l ∧ l ≠ [] ∧
      ((smallOracle.load = none ∨ (∃ n, smallOracle.load = some n ∧ n ≤ 5) ∨ 10 < 1048576 ∨
          (∀ i, mkPart smallOracle 5 (smallOracle.load.getD 0) i = none)) →
        l = [PdfBuf.original]) :=
  ⟨by decide, splitPDF_resolves 10 5 smallOracle (by decide)⟩

/-- A page of extracted text (`{page, text}` objects of the source). -/
structure PageT where
  pid : JStr
  text : JStr
deriving DecidableEq, Repr, Inhabited

def defaultPatientName : JStr := "Nome do Paciente não identificado".data

def ocrNoResultsMsg : JStr := "OCR não retornou resultados utilizáveis".data

/-- Outcomes of the external calls made while extracting the patient name:
the captured groups of the four label regexes against the first 3000
characters of the main text and of the OCR text, the two GPT calls and the
OCR call (`Except.error` models a thrown exception / rejected promise). -/
structure NameOracle where
  regexMain : List (Option JStr)
  gptMain : Except JStr JStr
  ocr : Except JStr (List PageT)
  regexOcr : List (Option JStr)
  gptOcr : Except JStr JStr

/-- The regex-pattern loop shared by both name-extraction variants
(src/index.js lines 111-120 and 173-182): the first captured group that is
non-empty and whose trimmed form has length > 3 and contains a space. -/
def firstAcceptedName : List (Option JStr) → Option JStr
  | [] => none
  | none :: rest => firstAcceptedName rest
  | some m :: rest =>
    if m = [] then firstAcceptedName rest
    else if 3 < (jsTrim m).length ∧ ' ' ∈ jsTrim m then some (jsTrim m)
    else firstAcceptedName rest

/-- Body of `extractPatientNameViaOcr` (src/index.js lines 89-146) before
its catch-all: OCR, then the regex loop, then GPT on the OCR text. -/
def viaOcrBody (o : NameOracle) : Except JStr JStr :=
  match o.ocr with
  | .error e => .error e
  | .ok rs =>
    if rs = [] ∨ (rs.headI).text = [] then .error ocrNoResultsMsg
    else
      match firstAcceptedName o.regexOcr with
      | some nm => .ok nm
      | none =>
        match o.gptOcr with
        | .error e => .error e
        | .ok raw => .ok (jsTrim raw)

/-- `extractPatientNameViaOcr` with its catch-all (src/index.js lines
147-150): any failure degrades to the fixed default string. -/
def extractPatientNameViaOcrE (o : NameOracle) : Except JStr JStr :=
  match viaOcrBody o with
  | .ok s => .ok s
  | .error _ => .ok defaultPatientName

/-- The confidence filter applied to the main GPT answer
(src/index.js lines 210-213). -/
def gptUnconfident (pn : JStr) : Bool :=
  pn == "FALLBACK_TO_OCR".data || pn == defaultPatientName ||
  decide (pn.length < 4) || !(pn.contains ' ')

/-- The try-block of `extractPatientName` (src/index.js lines 154-218):
no pages / no text falls back to the OCR variant immediately; then the
regex loop; then the main GPT call, whose unconfident answers also fall
back to the OCR variant. -/
def extractPatientNameBody (pages : Option (List PageT)) (o : NameOracle) :
    Except JStr JStr :=
  match pages with
  | none => extractPatientNameViaOcrE o
  | some ps =>
    if ps = [] ∨ (ps.headI).text = [] then extractPatientNameViaOcrE o
    else
      match firstAcceptedName o.regexMain with
      | some nm => .ok nm
      | none =>
        match o.gptMain with
        | .error e => .error e
        | .ok raw =>
          if gptUnconfident (jsTrim raw) then extractPatientNameViaOcrE o
          else .ok (jsTrim raw)

/-- `extractPatientName` (src/index.js lines 154-231): the try-block plus
the catch that falls back to the OCR variant (whose own catch returns the
default). -/
def extractPatientNameE (pages : Option (List PageT)) (o : NameOracle) :
    Except JStr JStr :=
  match extractPatientNameBody pages o with
  | .ok s => .ok s
  | .error _ => extractPatientNameViaOcrE o

/-- The OCR variant fails (throws internally) for this oracle. -/
def viaOcrFails (o : NameOracle) : Prop :=
  ∃ e, viaOcrBody o = Except.error e

theorem viaOcrE_isOk (o : NameOracle) : ∃ s, extractPatientNameViaOcrE o = Except.ok s := by
  unfold extractPatientNameViaOcrE
  rcases viaOcrBody o with e | s
  · exact ⟨defaultPatientName, rfl⟩
  · exact ⟨s, rfl⟩

theorem viaOcrE_default (o : NameOracle) (h : viaOcrFails o) :
    extractPatientNameViaOcrE o = Except.ok defaultPatientName := by
  rcases h with ⟨e, he⟩
  unfold extractPatientNameViaOcrE
  rw [he]

theorem extractE_of_body_viaOcr (pages : Option (List PageT)) (o : NameOracle)
    (h : extractPatientNameBody pages o = extractPatientNameViaOcrE o) :
    extractPatientNameE pages o = extractPatientNameViaOcrE o := by
  unfold extractPatientNameE
  rw [h]
  obtain ⟨s, hs⟩ := viaOcrE_isOk o
  rw [hs]

/-- C7: the patient-name identification never throws — for every input and
every behaviour of the regex/AI/OCR collaborators it returns a name; when
no pages or no text are available it is exactly the OCR-based variant; and
when every strategy fails (regexes match nothing, the AI answer is thrown
or unconfident, and the OCR variant fails internally) it returns the fixed
default string `Nome do Paciente não identificado`. -/
theorem extractPatientName_total :
    (∀ pages o, ∃ s, extractPatientNameE pages o = Except.ok s)
    ∧ (∀ o, extractPatientNameE none o = extractPatientNameViaOcrE o)
    ∧ (∀ o, extractPatientNameE (some []) o = extractPatientNameViaOcrE o)
    ∧ (∀ o p ps, p.text = [] →
        extractPatientNameE (some (p :: ps)) o = extractPatientNameViaOcrE o)
    ∧ (∀ pages o, firstAcceptedName o.regexMain = none →
        (∀ raw, o.gptMain = Except.ok raw → gptUnconfident (jsTrim raw) = true) →
        viaOcrFails o →
        extractPatientNameE pages o = Except.ok defaultPatientName) := by
  refine ⟨?_, ?_, ?_, ?_, ?_⟩
  · intro pages o
    unfold extractPatientNameE
    rcases hb : extractPatientNameBody pages o with e | s
    · exact viaOcrE_isOk o
    · exact ⟨s, rfl⟩
  · intro o
    exact extractE_of_body_viaOcr none o rfl
  · intro o
    exact extractE_of_body_viaOcr (some []) o rfl
  · intro o p ps hp
    refine extractE_of_body_viaOcr (some (p :: ps)) o ?_
    simp [extractPatientNameBody, hp]
  · intro pages o h1 h2 h3
    have hocr := viaOcrE_default o h3
    rcases pages with _ | ps
    · rw [extractE_of_body_viaOcr none o rfl, hocr]
    · by_cases hps : ps = [] ∨ (ps.headI).text = []
      · rw [extractE_of_body_viaOcr (some ps) o (by simp [extractPatientNameBody, hps]), hocr]
      · rcases hg : o.gptMain with e | raw
        · have hbody : extractPatientNameBody (some ps) o = Except.error e := by
            simp [extractPatientNameBody, hps, h1, hg]
          unfold extractPatientNameE
          rw [hbody, hocr]
        · have hbody : extractPatientNameBody (some ps) o = extractPatientNameViaOcrE o := by
            simp [extractPatientNameBody, hps, h1, hg, h2 raw hg]
          rw [extractE_of_body_viaOcr (some ps) o hbody, hocr]

def errMsgW : JStr := "erro de rede".data

def failOracle : NameOracle :=
  ⟨[none, none, none, none], Except.error errMsgW, Except.error errMsgW,
   [none, none, none, none], Except.error errMsgW⟩

def somePages : List PageT := [⟨"1".data, "algum texto sem nome".data⟩]

/-- Witness for C7 at a concrete input: with every regex missing, the AI
call throwing and the OCR call throwing, the function still returns the
fixed default name. -/
theorem extractPatientName_total_witness :
    extractPatientNameE (some somePages) failOracle = Except.ok defaultPatientName :=
  extractPatientName_total.2.2.2.2 (some somePages) failOracle (by decide)
    (fun raw h => Except.noConfusion h) ⟨errMsgW, rfl⟩

/-- The fixed explanatory message of the total-failure fallback
(src/unnamed/part_003 lines 1153-1156). -/
def failureMessage : JStr :=
  "Não foi possível processar este documento PDF. O formato pode ser incompatível ou o documento pode estar corrompido ou protegido de uma forma que nosso sistema não consegue processar. Por favor, tente converter o PDF para um formato mais simples ou entre em contato com o suporte.".data

/-- The single synthetic page produced when every recovery stage fails. -/
def syntheticPage : PageT := ⟨"Erro de Processamento".data, failureMessage⟩

/-- A failed recovery attempt record, `{method, success: false, error}`. -/
structure Attempt where
  method : JStr
  err : JStr
deriving DecidableEq, Repr

/-- The mutable state of the part_003 upload route: the accepted extracted
text, the extraction-method label, the patient name and the accumulated
failed attempts (`processingResults`). -/
structure StageState where
  finalText : Option (List PageT)
  method : JStr
  patientName : JStr
  attempts : List Attempt
deriving DecidableEq, Repr

/-- Result object of `attemptPdfDecryption` / `repairPdf`. -/
structure OpResult where
  success : Bool
  err : JStr
deriving DecidableEq, Repr

/-- Outcomes of the external calls made by the part_003 upload route
(`Except.error` models a thrown exception / rejected promise).
`nameFound` is the name `extractPatientName` would report on a success
path (irrelevant to the total-failure property). -/
structure RouteOracle where
  fileSizeKB : Nat
  isEncrypted : Bool
  parseDirect : Except JStr (List PageT)
  decrypt : Except JStr OpResult
  parseDecrypted : Except JStr (List PageT)
  ocr : Except JStr (List PageT)
  repair : Except JStr OpResult
  parseRepaired : Except JStr (List PageT)
  nameFound : JStr

/-- The `pages && pages.length > 0 && pages[0].text` usability check. -/
def usablePages (ps : List PageT) : Bool := !ps.isEmpty && !(ps.headI).text.isEmpty

/-- Body of Estratégia 1 once entered: direct parse; only a thrown error
records an attempt, a successful parse with unusable text records
nothing. -/
def stage1Go : Except JStr (List PageT) → JStr → StageState → StageState
  | .error e, _, s => { s with attempts := s.attempts ++ [⟨"direto".data, e⟩] }
  | .ok ps, nm, s =>
    if usablePages ps then
      { s with finalText := some ps, method := "direto".data, patientName := nm }
    else s

/-- Estratégia 1 (src/unnamed/part_003 lines 1011-1034): direct parse for
small unencrypted files. -/
def stage1 (o : RouteOracle) (s : StageState) : StageState :=
  if o.fileSizeKB ≤ 1000 && !o.isEncrypted then stage1Go o.parseDirect o.nameFound s else s

/-- Parse step shared by Estratégias 2 and 4 after a successful
decrypt/repair: a thrown parse records an attempt under the stage's
method label, a successful parse with unusable text records nothing. -/
def parseStep (label : JStr) (setMethod : JStr) :
    Except JStr (List PageT) → JStr → StageState → StageState
  | .error e, _, s => { s with attempts := s.attempts ++ [⟨label, e⟩] }
  | .ok ps, nm, s =>
    if usablePages ps then
      { s with finalText := some ps, method := setMethod, patientName := nm }
    else s

/-- Body of Estratégia 2 once entered: attemptPdfDecryption, then parse the
decrypted file; an unsuccessful decrypt or a thrown call records an
attempt. -/
def stage2Go : Except JStr OpResult → Except JStr (List PageT) → JStr → StageState → StageState
  | .error e, _, _, s => { s with attempts := s.attempts ++ [⟨"desproteger".data, e⟩] }
  | .ok r, parsed, nm, s =>
    if r.success then parseStep ("desproteger".data) ("desprotegido".data) parsed nm s
    else { s with attempts := s.attempts ++ [⟨"desproteger".data, r.err⟩] }

/-- Estratégia 2 (lines 1036-1074): decrypt-then-parse for encrypted
files still lacking text. -/
def stage2 (o : RouteOracle) (s : StageState) : StageState :=
  if s.finalText.isNone && o.isEncrypted then
    stage2Go o.decrypt o.parseDecrypted o.nameFound s
  else s

/-- Body of Estratégia 3 once entered: OCR; every failure — thrown or
no-usable-text — records an attempt. -/
def stage3Go : Except JStr (List PageT) → JStr → StageState → StageState
  | .error e, _, s => { s with attempts := s.attempts ++ [⟨"ocr".data, e⟩] }
  | .ok ps, nm, s =>
    if usablePages ps then
      { s with finalText := some ps, method := "ocr".data, patientName := nm }
    else { s with attempts := s.attempts ++ [⟨"ocr".data, "Sem resultados úteis do OCR".data⟩] }

/-- Estratégia 3 (lines 1076-1107): OCR when no text has been accepted
yet. -/
def stage3 (o : RouteOracle) (s : StageState) : StageState :=
  if s.finalText.isNone then stage3Go o.ocr o.nameFound s else s

/-- Body of Estratégia 4 once entered: repairPdf, then parse the repaired
file; an unsuccessful repair or a thrown call records an attempt. -/
def stage4Go : Except JStr OpResult → Except JStr (List PageT) → JStr → StageState → StageState
  | .error e, _, _, s => { s with attempts := s.attempts ++ [⟨"reparar".data, e⟩] }
  | .ok r, parsed, nm, s =>
    if r.success then parseStep ("reparar".data) ("reparado".data) parsed nm s
    else { s with attempts := s.attempts ++ [⟨"reparar".data, r.err⟩] }

/-- Estratégia 4 (lines 1109-1147): repair-then-parse as last resort. -/
def stage4 (o : RouteOracle) (s : StageState) : StageState :=
  if s.finalText.isNone then stage4Go o.repair o.parseRepaired o.nameFound s else s

def initState : StageState := ⟨none, "normal".data, defaultPatientName, []⟩

/-- The four ordered recovery strategies of the part_003 upload route. -/
def runStrategies (o : RouteOracle) : StageState :=
  stage4 o (stage3 o (stage2 o (stage1 o initState)))

/-- The total-failure fallback (lines 1149-1159): when no strategy
produced usable text, substitute the single synthetic page and report the
method as `falha`. -/
def runPipeline (o : RouteOracle) : StageState :=
  let s := runStrategies o
  if s.finalText.isNone then
    { s with finalText := some [syntheticPage], method := "falha".data }
  else s

/-- `splitTextIntoChunks` of part_003's `generateSummaries` (chunk size
3000 tokens × 4 characters = 12000). -/
def splitChunks (text : JStr) : List JStr :=
  (List.range ((text.length + 11999) / 12000)).map (fun i => (text.drop (i * 12000)).take 12000)

/-- The chunk loop of one page of part_003's `generateSummaries`: each
chunk's extraction result is trimmed and appended with a blank line; a
thrown call aborts the page. -/
def runChunks (gpt : JStr → Except JStr JStr) : List JStr → Except JStr JStr
  | [] => Except.ok []
  | c :: cs =>
    match gpt c with
    | .error e => .error e
    | .ok r =>
      match runChunks gpt cs with
      | .error e => .error e
      | .ok rest => .ok (jsTrim r ++ '\n' :: '\n' :: rest)

/-- A `{page, content}` summary object. -/
structure PageSummary where
  pid : JStr
  content : JStr
deriving DecidableEq, Repr

def headerOf (pn : JStr) : JStr := "Paciente: ".data ++ pn ++ '\n' :: '\n' :: []

/-- One page of part_003's `generateSummaries` (lines 840-914): the page
summary, or the fixed per-page error content when a chunk call throws. -/
def pageSummary (gpt : JStr → Except JStr JStr) (pn : JStr) (p : PageT) : PageSummary :=
  match runChunks gpt (splitChunks p.text) with
  | .ok body => ⟨p.pid, jsTrim (headerOf pn ++ body)⟩
  | .error _ => ⟨p.pid, headerOf pn ++ "Erro ao gerar resumo para esta página.".data⟩

/-- part_003's `generateSummaries`: exactly one summary per input page
(the per-page try/catch never drops a page). -/
def generateSummaries003 (gpt : JStr → Except JStr JStr) (pages : List PageT) (pn : JStr) :
    List PageSummary :=
  pages.map (pageSummary gpt pn)

/-- The JSON value the part_003 upload route responds with: the success
payload of `res.json` or the generic 500 error of the catch handlers. -/
inductive RouteResponse where
  | ok (summaries : List PageSummary) (patientName : JStr) (extractionMethod : JStr)
      (processingDetails : Option (List Attempt))
  | serverError (msg : JStr)
deriving DecidableEq, Repr

/-- The part_003 upload route after validation (lines 997-1182): run the
strategies and the fallback, summarise, dedup, respond.  Nothing on this
path can throw (every fallible call is modelled in the oracle and caught
by the route), so the `serverError` branch of the response is reached only
through the unreachable `finalText = none` case. -/
def respond (gpt : JStr → Except JStr JStr) (pn method : JStr) (attempts : List Attempt) :
    Option (List PageT) → RouteResponse
  | some pages =>
    RouteResponse.ok
      ((generateSummaries003 gpt pages pn).map (fun t => ⟨t.pid, removeDuplicates t.content⟩))
      pn method
      (if attempts.isEmpty then none else some attempts)
  | none => RouteResponse.serverError []

def uploadRoute (o : RouteOracle) (gpt : JStr → Except JStr JStr) : RouteResponse :=
  respond gpt (runPipeline o).patientName (runPipeline o).method (runPipeline o).attempts
    (runPipeline o).finalText


theorem parseStep_none (lab met : JStr) (r : Except JStr (List PageT)) (nm : JStr)
    (s : StageState) (h : (parseStep lab met r nm s).finalText = none) :
    s.finalText = none ∧ (parseStep lab met r nm s).patientName = s.patientName := by
  rcases r with e | ps
  · exact ⟨h, rfl⟩
  · by_cases hu : usablePages ps = true
    · simp only [parseStep] at h
      rw [if_pos hu] at h
      exact absurd h (by simp)
    · simp only [parseStep] at h ⊢
      rw [if_neg hu] at h ⊢
      exact ⟨h, rfl⟩

theorem parseStep_keeps (lab met : JStr) (r : Except JStr (List PageT)) (nm : JStr)
    (s : StageState) (hs : s.attempts ≠ []) : (parseStep lab met r nm s).attempts ≠ [] := by
  rcases r with e | ps
  · simp [parseStep]
  · by_cases hu : usablePages ps = true
    · simp only [parseStep]
      rw [if_pos hu]
      exact hs
    · simp only [parseStep]
      rw [if_neg hu]
      exact hs

theorem stage1Go_none (r : Except JStr (List PageT)) (nm : JStr) (s : StageState)
    (h : (stage1Go r nm s).finalText = none) :
    s.finalText = none ∧ (stage1Go r nm s).patientName = s.patientName := by
  rcases r with e | ps
  · exact ⟨h, rfl⟩
  · by_cases hu : usablePages ps = true
    · simp only [stage1Go] at h
      rw [if_pos hu] at h
      exact absurd h (by simp)
    · simp only [stage1Go] at h ⊢
      rw [if_neg hu] at h ⊢
      exact ⟨h, rfl⟩

theorem stage1_none {o : RouteOracle} {s : StageState}
    (h : (stage1 o s).finalText = none) :
    s.finalText = none ∧ (stage1 o s).patientName = s.patientName := by
  unfold stage1 at h ⊢
  by_cases hg : (o.fileSizeKB ≤ 1000 && !o.isEncrypted) = true
  · rw [if_pos hg] at h ⊢
    exact stage1Go_none _ _ _ h
  · rw [if_neg hg] at h ⊢
    exact ⟨h, rfl⟩

theorem stage2Go_none (dec : Except JStr OpResult) (parsed : Except JStr (List PageT))
    (nm : JStr) (s : StageState) (h : (stage2Go dec parsed nm s).finalText = none) :
    s.finalText = none ∧ (stage2Go dec parsed nm s).patientName = s.patientName := by
  rcases dec with e | r
  · exact ⟨h, rfl⟩
  · by_cases hr : r.success = true
    · simp only [stage2Go] at h ⊢
      rw [if_pos hr] at h ⊢
      exact parseStep_none _ _ _ _ _ h
    · simp only [stage2Go] at h ⊢
      rw [if_neg hr] at h ⊢
      exact ⟨h, rfl⟩

theorem stage2_none {o : RouteOracle} {s : StageState}
    (h : (stage2 o s).finalText = none) :
    s.finalText = none ∧ (stage2 o s).patientName = s.patientName := by
  unfold stage2 at h ⊢
  by_cases hg : (s.finalText.isNone && o.isEncrypted) = true
  · rw [if_pos hg] at h ⊢
    exact stage2Go_none _ _ _ _ h
  · rw [if_neg hg] at h ⊢
    exact ⟨h, rfl⟩

theorem stage3Go_none (r : Except JStr (List PageT)) (nm : JStr) (s : StageState)
    (h : (stage3Go r nm s).finalText = none) :
    s.finalText = none ∧ (stage3Go r nm s).patientName = s.patientName := by
  rcases r with e | ps
  · exact ⟨h, rfl⟩
  · by_cases hu : usablePages ps = true
    · simp only [stage3Go] at h
      rw [if_pos hu] at h
      exact absurd h (by simp)
    · simp only [stage3Go] at h ⊢
      rw [if_neg hu] at h ⊢
      exact ⟨h, rfl⟩

theorem stage3_none {o : RouteOracle} {s : StageState}
    (h : (stage3 o s).finalText = none) :
    s.finalText = none ∧ (stage3 o s).patientName = s.patientName := by
  unfold stage3 at h ⊢
  by_cases hg : s.finalText.isNone = true
  · rw [if_pos hg] at h ⊢
    exact stage3Go_none _ _ _ h
  · rw [if_neg hg] at h ⊢
    exact ⟨h, rfl⟩

theorem stage3Go_attempts (r : Except JStr (List PageT)) (nm : JStr) (s : StageState)
    (h : (stage3Go r nm s).finalText = none) : (stage3Go r nm s).attempts ≠ [] := by
  rcases r with e | ps
  · simp [stage3Go]
  · by_cases hu : usablePages ps = true
    · simp only [stage3Go] at h
      rw [if_pos hu] at h
      exact absurd h (by simp)
    · simp only [stage3Go]
      rw [if_neg hu]
      simp

theorem stage4Go_none (dec : Except JStr OpResult) (parsed : Except JStr (List PageT))
    (nm : JStr) (s : StageState) (h : (stage4Go dec parsed nm s).finalText = none) :
    s.finalText = none ∧ (stage4Go dec parsed nm s).patientName = s.patientName := by
  rcases dec with e | r
  · exact ⟨h, rfl⟩
  · by_cases hr : r.success = true
    · simp only [stage4Go] at h ⊢
      rw [if_pos hr] at h ⊢
      exact parseStep_none _ _ _ _ _ h
    · simp only [stage4Go] at h ⊢
      rw [if_neg hr] at h ⊢
      exact ⟨h, rfl⟩

theorem stage4_none {o : RouteOracle} {s : StageState}
    (h : (stage4 o s).finalText = none) :
    s.finalText = none ∧ (stage4 o s).patientName = s.patientName := by
  unfold stage4 at h ⊢
  by_cases hg : s.finalText.isNone = true
  · rw [if_pos hg] at h ⊢
    exact stage4Go_none _ _ _ _ h
  · rw [if_neg hg] at h ⊢
    exact ⟨h, rfl⟩

theorem stage4Go_keeps (dec : Except JStr OpResult) (parsed : Except JStr (List PageT))
    (nm : JStr) (s : StageState) (hs : s.attempts ≠ []) :
    (stage4Go dec parsed nm s).attempts ≠ [] := by
  rcases dec with e | r
  · simp [stage4Go]
  · by_cases hr : r.success = true
    · simp only [stage4Go]
      rw [if_pos hr]
      exact parseStep_keeps _ _ _ _ _ hs
    · simp only [stage4Go]
      rw [if_neg hr]
      simp

theorem stage4_keeps {o : RouteOracle} {s : StageState}
    (hs : s.attempts ≠ []) : (stage4 o s).attempts ≠ [] := by
  unfold stage4
  by_cases hg : s.finalText.isNone = true
  · rw [if_pos hg]
    exact stage4Go_keeps _ _ _ _ hs
  · rw [if_neg hg]
    exact hs

/-- C3: for every upload on which all recovery stages fail, the part_003
route still responds with the non-error payload: the pipeline substitutes
the single synthetic page with the fixed explanatory message, reports
`extractionMethod = "falha"`, and the response carries exactly one summary
together with a non-empty list of the failed recovery attempts. -/
theorem upload_total_failure_fallback (o : RouteOracle) (gpt : JStr → Except JStr JStr)
    (hfail : (runStrategies o).finalText = none) :
    (runPipeline o).finalText = some [syntheticPage] ∧
    (runPipeline o).method = "falha".data ∧
    ∃ sums details,
      uploadRoute o gpt = RouteResponse.ok sums defaultPatientName ("falha".data) (some details) ∧
      sums.length = 1 ∧ details ≠ [] := by
  have hfail' : (runStrategies o).finalText.isNone = true :=
    Option.isNone_iff_eq_none.mpr hfail
  have hpipe_ft : (runPipeline o).finalText = some [syntheticPage] := by
    unfold runPipeline
    rw [if_pos hfail']
  have hpipe_m : (runPipeline o).method = "falha".data := by
    unfold runPipeline
    rw [if_pos hfail']
  have hpipe_pn : (runPipeline o).patientName = (runStrategies o).patientName := by
    unfold runPipeline
    rw [if_pos hfail']
  have hpipe_att : (runPipeline o).attempts = (runStrategies o).attempts := by
    unfold runPipeline
    rw [if_pos hfail']
  have hfailS : (stage4 o (stage3 o (stage2 o (stage1 o initState)))).finalText = none := by
    rw [← hfail]
    rfl
  obtain ⟨h3f, h4p⟩ := stage4_none hfailS
  obtain ⟨h2f, h3p⟩ := stage3_none h3f
  obtain ⟨h1f, h2p⟩ := stage2_none h2f
  obtain ⟨h0f, h1p⟩ := stage1_none h1f
  have hname : (runStrategies o).patientName = defaultPatientName := by
    unfold runStrategies
    rw [h4p, h3p, h2p, h1p]
    rfl
  have hGo3 : (stage3Go o.ocr o.nameFound (stage2 o (stage1 o initState))).finalText = none := by
    have h := h3f
    unfold stage3 at h
    rwa [if_pos (Option.isNone_iff_eq_none.mpr h2f)] at h
  have hatt3 : (stage3 o (stage2 o (stage1 o initState))).attempts ≠ [] := by
    unfold stage3
    rw [if_pos (Option.isNone_iff_eq_none.mpr h2f)]
    exact stage3Go_attempts _ _ _ hGo3
  have hatt : (runStrategies o).attempts ≠ [] := by
    unfold runStrategies
    exact stage4_keeps hatt3
  have hempty : (runStrategies o).attempts.isEmpty = false := by
    rcases hh : (runStrategies o).attempts with _ | ⟨a, t⟩
    · exact absurd hh hatt
    · rfl
  refine ⟨hpipe_ft, hpipe_m,
    (generateSummaries003 gpt [syntheticPage] defaultPatientName).map
      (fun t => ⟨t.pid, removeDuplicates t.content⟩),
    (runStrategies o).attempts, ?_, ?_, hatt⟩
  · unfold uploadRoute
    rw [hpipe_ft]
    simp only [respond]
    rw [hpipe_m, hpipe_pn, hname, hpipe_att, hempty]
    rw [if_neg (by simp)]
  · simp [generateSummaries003]

def failRoute : RouteOracle :=
  { fileSizeKB := 100, isEncrypted := false,
    parseDirect := Except.ok [],
    decrypt := Except.error errMsgW,
    parseDecrypted := Except.ok [],
    ocr := Except.error errMsgW,
    repair := Except.ok ⟨false, errMsgW⟩,
    parseRepaired := Except.ok [],
    nameFound := "Fulano de Tal".data }

def gptFail : JStr → Except JStr JStr := fun _ => Except.error errMsgW

/-- Witness for C3 at a concrete input: a small unencrypted upload whose
direct parse yields no pages, whose OCR throws and whose repair reports
failure still gets a success payload with one summary, method `falha` and
non-empty diagnostics. -/
theorem upload_total_failure_fallback_witness :
    (runStrategies failRoute).finalText = none ∧
    ((runPipeline failRoute).finalText = some [syntheticPage] ∧
     (runPipeline failRoute).method = "falha".data ∧
     ∃ sums details,
       uploadRoute failRoute gptFail =
         RouteResponse.ok sums defaultPatientName ("falha".data) (some details) ∧
       sums.length = 1 ∧ details ≠ []) :=
  ⟨by decide, upload_total_failure_fallback failRoute gptFail (by decide)⟩
